import Mathlib

/-!
Verification of the StreamFX thread-pool core (src/source/util/util-threadpool.hpp).

The repository ships only the interface declarations of
streamfx::util::threadpool (the header); the translation unit with the
member-function bodies is not part of the sources.  The data model below is
therefore a shallow embedding built from the header's declarations together
with the natural-language specification of the component: every definition
whose body is not determined by the header alone carries a doc comment
starting with `Modelled from the spec:`.

Conventions of the embedding:
  * the three atomic status flags of `task` become plain `Bool` fields;
  * the callback and its opaque payload are represented only through their
    observable outcome (`CbResult`): a run either returns normally or raises;
  * real time becomes a `Nat` timestamp passed explicitly to the operations
    that read the monotonic clock;
  * blocking (`wait`, condition variables) is represented by the predicate
    that decides when a blocked thread is allowed to resume.
-/

/-- Outcome of invoking the user callback: it either returns normally or
raises an error that escapes the callback body. -/
inductive CbResult
  | ok
  | raised
deriving DecidableEq

/-- State of `streamfx::util::threadpool::task` (util-threadpool.hpp:53-101):
the three independent atomic flags `_cancelled`, `_completed`, `_failed`.
The callback, payload and the mutex/condition-variable wake channel are
represented only through their observable effects. -/
structure task where
  cancelled : Bool
  completed : Bool
  failed : Bool
deriving DecidableEq

/-- A freshly constructed task: the constructor initializes all flags to
false. -/
def task.new : task := ⟨false, false, false⟩

/-- Modelled from the spec: body of `task::run` (declared at
util-threadpool.hpp:82).  If `cancelled` is already set the callback is
skipped and the task is marked completed; otherwise the callback is invoked,
a raised error is captured as `failed` and the task is still marked
completed.  The result pairs the new state with whether the callback was
invoked; that `run` is a total function (it returns in every case) embeds
the requirement that no error propagates out of `run`. -/
def task.run (t : task) (cb : CbResult) : task × Bool :=
  if t.cancelled then
    ({ t with completed := true }, false)
  else
    match cb with
    | CbResult.ok => ({ t with completed := true }, true)
    | CbResult.raised => ({ t with completed := true, failed := true }, true)

/-- Modelled from the spec: body of `task::cancel` (declared at
util-threadpool.hpp:85): sets `cancelled` and nothing else. -/
def task.cancel (t : task) : task := { t with cancelled := true }

/-- Modelled from the spec: `task::wait` blocks until `completed` becomes
true; in the embedding a waiter is unblocked exactly when the flag is set. -/
def task.wait_unblocked (t : task) : Bool := t.completed

/-- Modelled from the spec: the pool destructor drains the queue and cancels
every task still left in it, marking it completed and failed so no handle is
left dangling. -/
def drain_task (t : task) : task :=
  { t with cancelled := true, completed := true, failed := true }

/-- The operations that can touch a task's flags over its lifetime:
being run by a worker, `cancel`, `wait`, removal from the queue via
`threadpool::pop`, and the destructor's drain. -/
inductive TaskOp
  | run (cb : CbResult)
  | cancel
  | wait
  | pop
  | drain

/-- Effect of one lifecycle operation on a task's flag state.  `wait` and
`pop` never change the flags (`pop` only removes the queue entry). -/
def task.apply : task → TaskOp → task
  | t, TaskOp.run cb => (t.run cb).1
  | t, TaskOp.cancel => t.cancel
  | t, TaskOp.wait => t
  | t, TaskOp.pop => t
  | t, TaskOp.drain => drain_task t

/-- A whole sequence of lifecycle operations applied in order. -/
def task.applyAll (t : task) : List TaskOp → task
  | [] => t
  | op :: ops => (t.apply op).applyAll ops

/-- Modelled from the spec: the fixed idle threshold after which an idle
worker considers retiring.  The concrete duration is not fixed by the
header; only its existence matters to the proofs. -/
def idle_threshold : Nat := 500

/-- Modelled from the spec: the cooldown window that rate-limits worker
retirement (time that must have elapsed since `_last_worker_death`,
util-threadpool.hpp:115). -/
def death_cooldown : Nat := 100

/-- State of `streamfx::util::threadpool` (util-threadpool.hpp:103-147):
the `_limits` pair, the worker count, the timestamp of the most recent
worker death, and the FIFO list `_tasks` of pending tasks.  The per-worker
thread handles, locks and condition variables are represented only through
their observable effects on this state. -/
structure threadpool where
  minimum : Nat
  maximum : Nat
  workers : Nat
  last_death : Nat
  tasks : List task
deriving DecidableEq

/-- Modelled from the spec: `threadpool::spawn(count)` (declared at
util-threadpool.hpp:140) appends up to `count` new workers, one at a time,
never past the `maximum` bound; a spawn requested past `maximum` is a no-op,
not an error. -/
def threadpool.spawn : threadpool → Nat → threadpool
  | p, 0 => p
  | p, n + 1 =>
    if p.workers < p.maximum then
      threadpool.spawn { p with workers := p.workers + 1 } n
    else
      p

/-- Modelled from the spec: the constructor (util-threadpool.hpp:131) stores
the limits unvalidated and immediately spawns `minimum` workers. -/
def threadpool.construct (minimum maximum : Nat) : threadpool :=
  threadpool.spawn ⟨minimum, maximum, 0, 0, []⟩ minimum

/-- Construction with both arguments omitted: the header's default arguments
are `minimum = 2` and `maximum = std::thread::hardware_concurrency()`
(util-threadpool.hpp:131); the environment's hardware concurrency is the
parameter. -/
def threadpool.construct_default (hardware_concurrency : Nat) : threadpool :=
  threadpool.construct 2 hardware_concurrency

/-- Modelled from the spec: the retirement condition checked by a worker in
`threadpool::die` (declared at util-threadpool.hpp:143): the idle duration
exceeds the idle threshold, the worker count is strictly above `minimum`,
and at least the cooldown window has elapsed since the last worker death. -/
def threadpool.should_die (p : threadpool) (now last_active : Nat) : Bool :=
  decide (idle_threshold < now - last_active)
    && decide (p.minimum < p.workers)
    && decide (death_cooldown ≤ now - p.last_death)

/-- Modelled from the spec: `threadpool::die` retires the calling worker
exactly when `should_die` holds, removing it from the worker set and
recording the retirement timestamp. -/
def threadpool.die (p : threadpool) (now last_active : Nat) : threadpool :=
  if p.should_die now last_active then
    { p with workers := p.workers - 1, last_death := now }
  else
    p

/-- Modelled from the spec: `threadpool::push` (declared at
util-threadpool.hpp:134) appends the new task to the tail of `_tasks` and,
when queue pressure is detected (more pending entries than idle workers,
abstracted as the `pressure` flag) and the worker count is below `maximum`,
spawns one additional worker. -/
def threadpool.push (p : threadpool) (t : task) (pressure : Bool) : threadpool :=
  let q : threadpool := { p with tasks := p.tasks ++ [t] }
  if pressure && decide (p.workers < p.maximum) then q.spawn 1 else q

/-- Modelled from the spec: a worker dequeues the head of the pending
queue. -/
def threadpool.dequeue (p : threadpool) : Option (task × threadpool) :=
  match p.tasks with
  | [] => none
  | t :: rest => some (t, { p with tasks := rest })

/-- Modelled from the spec: the destructor joins all workers and then drains
the queue, resolving every task still pending as cancelled, completed and
failed.  The result is the list of resolved tasks the handles observe. -/
def threadpool.destroy (p : threadpool) : List task :=
  p.tasks.map drain_task

/-- Modelled from the spec: a task pushed concurrently with destruction is
either dequeued and run by a worker before shutdown (`dequeued = true`) or
left in the queue and drained by the destructor. -/
def resolve_concurrent_push (t : task) (dequeued : Bool) (cb : CbResult) : task :=
  if dequeued then (t.run cb).1 else drain_task t

/-- The pool operations that can change the worker count or the queue. -/
inductive PoolOp
  | spawn (count : Nat)
  | die (now last_active : Nat)
  | push (t : task) (pressure : Bool)
  | dequeue

/-- Effect of one pool operation on the pool state. -/
def threadpool.step (p : threadpool) : PoolOp → threadpool
  | PoolOp.spawn c => p.spawn c
  | PoolOp.die now la => p.die now la
  | PoolOp.push t pr => p.push t pr
  | PoolOp.dequeue =>
    match p.dequeue with
    | none => p
    | some (_, q) => q

/-- A whole sequence of pool operations applied in order: the reachable
states of a pool are exactly the results of `run_ops` from a constructed
pool. -/
def threadpool.run_ops (p : threadpool) : List PoolOp → threadpool
  | [] => p
  | op :: ops => (p.step op).run_ops ops

/-- The worker-count invariant stated by the spec:
`minimum ≤ current_worker_count ≤ maximum`. -/
def threadpool.worker_inv (p : threadpool) : Prop :=
  p.minimum ≤ p.workers ∧ p.workers ≤ p.maximum

instance (p : threadpool) : Decidable p.worker_inv := by
  unfold threadpool.worker_inv
  infer_instance

/-- Pushing a whole list of tasks (each with its observed pressure flag) in
order. -/
def threadpool.push_many (p : threadpool) : List (task × Bool) → threadpool
  | [] => p
  | (t, pr) :: rest => (p.push t pr).push_many rest

/-- Dequeueing repeatedly (with explicit fuel) and collecting the tasks in
the order the workers receive them. -/
def dequeue_list : threadpool → Nat → List task
  | _, 0 => []
  | p, fuel + 1 =>
    match p.dequeue with
    | none => []
    | some (t, q) => t :: dequeue_list q fuel

/-- C2: a task whose `cancelled` flag is set before it is run (so both
`completed` and `failed` are still false) is resolved by `run` as a no-op
completion: the callback is never invoked, `completed` becomes true and
`failed` stays false. -/
theorem run_of_cancelled_is_noop_completion (t : task) (cb : CbResult)
    (hc : t.cancelled = true) (hncomp : t.completed = false)
    (hnf : t.failed = false) :
    (t.run cb).1.completed = true ∧ (t.run cb).1.failed = false
      ∧ (t.run cb).2 = false := by
  simp [task.run, hc, hnf]

/-- Witness for C2 at the concrete task `task.new.cancel`. -/
theorem run_of_cancelled_is_noop_completion_witness :
    ((task.new.cancel).run CbResult.ok).1.completed = true
      ∧ ((task.new.cancel).run CbResult.ok).1.failed = false
      ∧ ((task.new.cancel).run CbResult.ok).2 = false :=
  run_of_cancelled_is_noop_completion task.new.cancel CbResult.ok rfl rfl rfl

/-- C3: when the callback raises during `run`, the task ends failed and
completed, the callback was indeed invoked, and the error does not escape
`run` (embedded in `run` being a total function returning this state). -/
theorem run_of_raised_sets_failed (t : task) (hc : t.cancelled = false) :
    (t.run CbResult.raised).1.failed = true
      ∧ (t.run CbResult.raised).1.completed = true
      ∧ (t.run CbResult.raised).2 = true := by
  simp [task.run, hc]

/-- Witness for C3 at the concrete task `task.new`. -/
theorem run_of_raised_sets_failed_witness :
    ((task.new).run CbResult.raised).1.failed = true
      ∧ ((task.new).run CbResult.raised).1.completed = true
      ∧ ((task.new).run CbResult.raised).2 = true :=
  run_of_raised_sets_failed task.new rfl

/-- C7: `cancel` sets `cancelled` so it reads true immediately afterwards,
is idempotent (a second call leaves the state identical), and leaves
`completed` and `failed` untouched (in particular it is a no-op on an
already-completed task). -/
theorem cancel_sets_flag_idempotent_preserves (t : task) :
    (t.cancel).cancelled = true
      ∧ (t.cancel).cancel = t.cancel
      ∧ (t.cancel).completed = t.completed
      ∧ (t.cancel).failed = t.failed := by
  simp [task.cancel]

/-- Helper: the applied lifecycle operations never reset `completed`. -/
theorem task.apply_completed_mono (t : task) (op : TaskOp)
    (h : t.completed = true) : (t.apply op).completed = true := by
  cases op with
  | run cb =>
    cases cb <;> simp [task.apply, task.run] <;> split <;> simp
  | cancel => simpa [task.apply, task.cancel] using h
  | wait => simpa [task.apply] using h
  | pop => simpa [task.apply] using h
  | drain => simp [task.apply, drain_task]

/-- Helper: the applied lifecycle operations never reset `failed`. -/
theorem task.apply_failed_mono (t : task) (op : TaskOp)
    (h : t.failed = true) : (t.apply op).failed = true := by
  cases op with
  | run cb =>
    cases cb <;> simp [task.apply, task.run] <;> split <;> simp [h]
  | cancel => simpa [task.cancel, task.apply] using h
  | wait => simpa [task.apply] using h
  | pop => simpa [task.apply] using h
  | drain => simp [task.apply, drain_task]

/-- C8: across any sequence of lifecycle operations (run, cancel, wait,
pop, destructor drain), once `completed` is true it never reverts to false,
and once `failed` is true it never reverts to false. -/
theorem flags_never_revert (t : task) (ops : List TaskOp) :
    (t.completed = true → (t.applyAll ops).completed = true)
      ∧ (t.failed = true → (t.applyAll ops).failed = true) := by
  induction ops generalizing t with
  | nil => exact ⟨fun h => h, fun h => h⟩
  | cons op ops ih =>
    refine ⟨fun h => ?_, fun h => ?_⟩
    · exact (ih (t.apply op)).1 (task.apply_completed_mono t op h)
    · exact (ih (t.apply op)).2 (task.apply_failed_mono t op h)

/-- Witness for C8 at a concrete task and operation sequence. -/
theorem flags_never_revert_witness :
    ((drain_task task.new).applyAll
        [TaskOp.cancel, TaskOp.run CbResult.ok, TaskOp.wait]).completed = true :=
  (flags_never_revert (drain_task task.new)
    [TaskOp.cancel, TaskOp.run CbResult.ok, TaskOp.wait]).1 rfl

/-- C1: destroying the pool resolves every task still pending.  Every task
in the drained queue ends completed (and failed), so every thread blocked in
`wait` on it is unblocked; and a task pushed concurrently with destruction
— either dequeued and run, or drained — always ends completed (waiters
woken), and when it was not run it is resolved as cancelled and failed,
never left unresolved. -/
theorem destroy_resolves_every_task (p : threadpool) :
    (∀ t, t ∈ p.destroy →
        t.completed = true ∧ t.failed = true ∧ t.wait_unblocked = true)
      ∧ (∀ (t : task) (dequeued : Bool) (cb : CbResult),
          (resolve_concurrent_push t dequeued cb).completed = true
            ∧ (resolve_concurrent_push t dequeued cb).wait_unblocked = true
            ∧ (dequeued = false →
                (resolve_concurrent_push t dequeued cb).cancelled = true
                  ∧ (resolve_concurrent_push t dequeued cb).failed = true)) := by
  constructor
  · intro t ht
    simp only [threadpool.destroy, List.mem_map] at ht
    obtain ⟨u, _, rfl⟩ := ht
    simp [drain_task, task.wait_unblocked]
  · intro t dequeued cb
    cases dequeued with
    | false => simp [resolve_concurrent_push, drain_task, task.wait_unblocked]
    | true =>
      simp only [resolve_concurrent_push, if_pos, task.wait_unblocked]
      cases cb <;> simp [task.run] <;> split <;> simp

/-- Witness for C1 at a concrete pool holding one pending task. -/
theorem destroy_resolves_every_task_witness :
    (drain_task task.new).completed = true :=
  ((destroy_resolves_every_task ⟨2, 4, 2, 0, [task.new]⟩).1
    (drain_task task.new) (by simp [threadpool.destroy])).1

/-- Helper: `spawn` only changes the worker count, never the queue or the
other fields. -/
theorem threadpool.spawn_fields (p : threadpool) (c : Nat) :
    (p.spawn c).tasks = p.tasks
      ∧ (p.spawn c).minimum = p.minimum
      ∧ (p.spawn c).maximum = p.maximum
      ∧ (p.spawn c).last_death = p.last_death := by
  induction c generalizing p with
  | zero => simp [threadpool.spawn]
  | succ n ih =>
    simp only [threadpool.spawn]
    split
    · simpa using ih { p with workers := p.workers + 1 }
    · simp

/-- Helper: `push` appends the new task at the tail of the queue. -/
theorem threadpool.push_tasks (p : threadpool) (t : task) (pr : Bool) :
    (p.push t pr).tasks = p.tasks ++ [t] := by
  simp only [threadpool.push]
  split
  · exact (threadpool.spawn_fields { p with tasks := p.tasks ++ [t] } 1).1
  · rfl

/-- Helper: `push_many` appends all pushed tasks in submission order. -/
theorem threadpool.push_many_tasks (l : List (task × Bool)) (p : threadpool) :
    (p.push_many l).tasks = p.tasks ++ l.map Prod.fst := by
  induction l generalizing p with
  | nil => simp [threadpool.push_many]
  | cons hd tl ih =>
    obtain ⟨t, pr⟩ := hd
    simp [threadpool.push_many, ih, threadpool.push_tasks, List.append_assoc]

/-- Helper: with fuel equal to the queue length, repeated dequeueing yields
exactly the queue, head first. -/
theorem dequeue_list_eq (ts : List task) (p : threadpool) (h : p.tasks = ts) :
    dequeue_list p ts.length = ts := by
  induction ts generalizing p with
  | nil => simp [dequeue_list]
  | cons t rest ih =>
    simp only [List.length_cons, dequeue_list, threadpool.dequeue, h]
    exact congrArg (t :: ·) (ih { p with tasks := rest } rfl)

/-- C6: `push` appends at the tail and workers dequeue the head, so tasks
are dequeued in submission order (FIFO): after pushing any list of tasks
onto any pool, draining the queue yields the previously pending tasks
followed by the pushed tasks, in push order. -/
theorem push_dequeue_fifo (p : threadpool) (l : List (task × Bool)) :
    dequeue_list (p.push_many l) (p.tasks ++ l.map Prod.fst).length
      = p.tasks ++ l.map Prod.fst :=
  dequeue_list_eq (p.tasks ++ l.map Prod.fst) (p.push_many l)
    (threadpool.push_many_tasks l p)

/-- Helper: `spawn` never shrinks the worker count. -/
theorem threadpool.spawn_workers_ge (p : threadpool) (c : Nat) :
    p.workers ≤ (p.spawn c).workers := by
  induction c generalizing p with
  | zero => simp [threadpool.spawn]
  | succ n ih =>
    simp only [threadpool.spawn]
    split
    · exact Nat.le_trans (Nat.le_succ _) (ih { p with workers := p.workers + 1 })
    · exact Nat.le_refl _

/-- Helper: `spawn` never pushes the worker count past `maximum` when it was
within the bound to begin with. -/
theorem threadpool.spawn_workers_le (p : threadpool) (c : Nat)
    (h : p.workers ≤ p.maximum) : (p.spawn c).workers ≤ p.maximum := by
  induction c generalizing p with
  | zero => simpa [threadpool.spawn] using h
  | succ n ih =>
    simp only [threadpool.spawn]
    split
    · next hlt => simpa using ih { p with workers := p.workers + 1 } hlt
    · exact h

/-- Helper: a spawn requested when the pool is already at (or past) its
`maximum` changes nothing at all. -/
theorem threadpool.spawn_at_max_noop (p : threadpool) (c : Nat)
    (h : p.maximum ≤ p.workers) : p.spawn c = p := by
  cases c with
  | zero => rfl
  | succ n =>
    simp only [threadpool.spawn]
    rw [if_neg (Nat.not_lt.mpr h)]

/-- Helper: when there is room for all `c` requested workers, `spawn` adds
exactly `c`. -/
theorem threadpool.spawn_exact (c : Nat) (p : threadpool)
    (h : p.workers + c ≤ p.maximum) : (p.spawn c).workers = p.workers + c := by
  induction c generalizing p with
  | zero => simp [threadpool.spawn]
  | succ n ih =>
    simp only [threadpool.spawn]
    rw [if_pos (by omega)]
    have := ih { p with workers := p.workers + 1 } (by simpa using by omega)
    simpa [Nat.add_assoc, Nat.add_comm 1 n] using this

/-- Helper: every single pool operation preserves the worker-count
invariant. -/
theorem threadpool.step_preserves_inv (p : threadpool) (op : PoolOp)
    (h : p.worker_inv) : (p.step op).worker_inv := by
  obtain ⟨hmin, hmax⟩ := h
  cases op with
  | spawn c =>
    obtain ⟨-, hm, hM, -⟩ := threadpool.spawn_fields p c
    refine ⟨?_, ?_⟩
    · rw [threadpool.step, hm]
      exact Nat.le_trans hmin (p.spawn_workers_ge c)
    · rw [threadpool.step, hM]
      exact p.spawn_workers_le c hmax
  | die now la =>
    simp only [threadpool.step, threadpool.die, threadpool.worker_inv]
    split
    · next hdie =>
      simp only [threadpool.should_die, Bool.and_eq_true, decide_eq_true_eq] at hdie
      simp only
      omega
    · exact ⟨hmin, hmax⟩
  | push t pr =>
    simp only [threadpool.step, threadpool.push, threadpool.worker_inv]
    split
    · obtain ⟨-, hm, hM, -⟩ :=
        threadpool.spawn_fields { p with tasks := p.tasks ++ [t] } 1
      rw [hm, hM]
      refine ⟨Nat.le_trans hmin ?_, ?_⟩
      · simpa using threadpool.spawn_workers_ge { p with tasks := p.tasks ++ [t] } 1
      · simpa using
          threadpool.spawn_workers_le { p with tasks := p.tasks ++ [t] } 1 hmax
    · exact ⟨hmin, hmax⟩
  | dequeue =>
    simp only [threadpool.step, threadpool.dequeue]
    cases p.tasks with
    | nil => exact ⟨hmin, hmax⟩
    | cons t rest => exact ⟨hmin, hmax⟩

/-- Helper: the invariant is inductive along any operation sequence. -/
theorem threadpool.run_ops_preserves_inv (ops : List PoolOp) (p : threadpool)
    (h : p.worker_inv) : (p.run_ops ops).worker_inv := by
  induction ops generalizing p with
  | nil => exact h
  | cons op ops ih => exact ih (p.step op) (p.step_preserves_inv op h)

/-- Counterexample to C4 as stated: with the degenerate bounds
`minimum = 2, maximum = 0` (reachable through the header's default arguments
when `hardware_concurrency` reports 0) the freshly constructed pool already
violates `minimum ≤ current_worker_count`. -/
theorem worker_inv_fails_on_degenerate_pool :
    ¬ (threadpool.construct 2 0).worker_inv := by decide

/-- C4 (amended): for every pool whose bounds satisfy `minimum ≤ maximum`,
every reachable state satisfies `minimum ≤ current_worker_count ≤ maximum`;
moreover a spawn requested at or past `maximum` is a no-op (not an error),
and retirement (the only shrinking operation) never drops the count below
`minimum`. -/
theorem worker_inv_reachable (minimum maximum : Nat) (hb : minimum ≤ maximum)
    (ops : List PoolOp) :
    ((threadpool.construct minimum maximum).run_ops ops).worker_inv
      ∧ (∀ (p : threadpool) (c : Nat), p.maximum ≤ p.workers → p.spawn c = p)
      ∧ (∀ (p : threadpool) (now la : Nat), p.minimum ≤ p.workers →
          p.minimum ≤ (p.die now la).workers) := by
  refine ⟨?_, fun p c h => p.spawn_at_max_noop c h, ?_⟩
  · refine threadpool.run_ops_preserves_inv ops _ ?_
    have hw : (threadpool.construct minimum maximum).workers = minimum := by
      simpa using threadpool.spawn_exact minimum ⟨minimum, maximum, 0, 0, []⟩
        (by simpa using hb)
    have hmin : (threadpool.construct minimum maximum).minimum = minimum :=
      (threadpool.spawn_fields ⟨minimum, maximum, 0, 0, []⟩ minimum).2.1
    have hmax : (threadpool.construct minimum maximum).maximum = maximum :=
      (threadpool.spawn_fields ⟨minimum, maximum, 0, 0, []⟩ minimum).2.2.1
    exact ⟨by omega, by omega⟩
  · intro p now la h
    simp only [threadpool.die]
    split
    · next hdie =>
      simp only [threadpool.should_die, Bool.and_eq_true, decide_eq_true_eq] at hdie
      simp only
      omega
    · exact h

/-- Witness for C4 (amended) at concrete bounds and a concrete operation
sequence. -/
theorem worker_inv_reachable_witness :
    ((threadpool.construct 2 4).run_ops
        [PoolOp.spawn 3, PoolOp.die 1000 0, PoolOp.push task.new true,
          PoolOp.dequeue]).worker_inv :=
  (worker_inv_reachable 2 4 (by decide)
    [PoolOp.spawn 3, PoolOp.die 1000 0, PoolOp.push task.new true,
      PoolOp.dequeue]).1

/-- Helper: the worker count `spawn` produces depends only on the current
count and the `maximum` bound, not on any timestamp. -/
theorem threadpool.spawn_workers_congr (c : Nat) (p q : threadpool)
    (hw : p.workers = q.workers) (hM : p.maximum = q.maximum) :
    (p.spawn c).workers = (q.spawn c).workers := by
  induction c generalizing p q with
  | zero => simpa [threadpool.spawn] using hw
  | succ n ih =>
    simp only [threadpool.spawn]
    rw [hw, hM]
    split
    · exact ih _ _ rfl rfl
    · exact hw

/-- C5: a worker retires via `die` only when all three conditions hold at
the decision point — idle duration above the threshold, worker count
strictly above `minimum`, and at least the cooldown elapsed since the last
worker death; a retirement records its timestamp, so a second retirement
cannot happen within the cooldown window (at most one retirement per
window); `spawn`, by contrast, never reads or writes the death timestamp,
so growth is not rate-limited. -/
theorem die_conditions_and_rate_limit (p : threadpool) (now la : Nat) :
    ((p.die now la).workers ≠ p.workers →
        idle_threshold < now - la ∧ p.minimum < p.workers
          ∧ death_cooldown ≤ now - p.last_death
          ∧ (p.die now la).last_death = now)
      ∧ (∀ n2 la2, (p.die now la).workers ≠ p.workers →
          n2 - now < death_cooldown → (p.die now la).die n2 la2 = p.die now la)
      ∧ (∀ c, (p.spawn c).last_death = p.last_death)
      ∧ (∀ c ld, (threadpool.spawn { p with last_death := ld } c).workers
          = (p.spawn c).workers) := by
  have hfire : (p.die now la).workers ≠ p.workers →
      (idle_threshold < now - la ∧ p.minimum < p.workers
        ∧ death_cooldown ≤ now - p.last_death)
        ∧ p.die now la
          = { p with workers := p.workers - 1, last_death := now } := by
    intro hne
    by_cases hd : p.should_die now la = true
    · simp only [threadpool.should_die, Bool.and_eq_true, decide_eq_true_eq] at hd
      exact ⟨⟨hd.1.1, hd.1.2, hd.2⟩, by simp [threadpool.die, threadpool.should_die, hd]⟩
    · exfalso
      apply hne
      simp [threadpool.die, hd]
  refine ⟨?_, ?_, ?_, ?_⟩
  · intro hne
    obtain ⟨⟨h1, h2, h3⟩, heq⟩ := hfire hne
    exact ⟨h1, h2, h3, by rw [heq]⟩
  · intro n2 la2 hne hwin
    obtain ⟨-, heq⟩ := hfire hne
    rw [heq, threadpool.die, if_neg]
    simp only [threadpool.should_die, Bool.and_eq_true, decide_eq_true_eq]
    intro hcontra
    omega
  · exact fun c => (threadpool.spawn_fields p c).2.2.2
  · exact fun c ld => threadpool.spawn_workers_congr c
      { p with last_death := ld } p rfl rfl

/-- Witness for C5: a concrete idle, over-minimum pool retires one worker at
time 1000, and a second retirement attempt 50 time units later (inside the
cooldown window) is refused. -/
theorem die_conditions_and_rate_limit_witness :
    (threadpool.die ⟨2, 8, 4, 0, []⟩ 1000 0).die 1050 0
      = threadpool.die ⟨2, 8, 4, 0, []⟩ 1000 0 :=
  (die_conditions_and_rate_limit ⟨2, 8, 4, 0, []⟩ 1000 0).2.1 1050 0
    (by decide) (by decide)

/-- Counterexample to C9 as stated: in an environment whose
`hardware_concurrency` reports 0 (permitted by the C++ standard), the
default-constructed pool keeps `minimum = 2` but spawns 0 workers, not
`minimum = 2` of them, because `spawn` refuses to exceed `maximum = 0`. -/
theorem construct_default_degenerate_spawns_zero :
    (threadpool.construct_default 0).minimum = 2
      ∧ (threadpool.construct_default 0).workers = 0
      ∧ (threadpool.construct_default 0).workers
          ≠ (threadpool.construct_default 0).minimum := by decide

/-- C9 (amended): construction with omitted arguments uses `minimum = 2`
and `maximum = hardware_concurrency`, and — whenever the hardware reports at
least 2 execution contexts, so that `minimum ≤ maximum` — it spawns exactly
`minimum = 2` workers immediately, before any task is submitted (the queue
is still empty). -/
theorem construct_default_spawns_minimum (hw : Nat) (h : 2 ≤ hw) :
    (threadpool.construct_default hw).minimum = 2
      ∧ (threadpool.construct_default hw).maximum = hw
      ∧ (threadpool.construct_default hw).workers = 2
      ∧ (threadpool.construct_default hw).tasks = [] := by
  obtain ⟨ht, hm, hM, -⟩ := threadpool.spawn_fields ⟨2, hw, 0, 0, []⟩ 2
  refine ⟨hm, hM, ?_, ht⟩
  simpa using threadpool.spawn_exact 2 ⟨2, hw, 0, 0, []⟩ (by simpa using h)

/-- Witness for C9 (amended) on a 4-context machine. -/
theorem construct_default_spawns_minimum_witness :
    (threadpool.construct_default 4).workers = 2 :=
  (construct_default_spawns_minimum 4 (by decide)).2.2.1

/-- C10: when `hardware_concurrency` reports fewer than 2 contexts, the
default-constructed pool stores the bounds unvalidated, so
`maximum < minimum`, and the invariant
`minimum ≤ current_worker_count ≤ maximum` is unsatisfiable: no worker
count whatsoever satisfies it from construction on. -/
theorem default_limits_unsatisfiable (hw : Nat) (h : hw < 2) :
    (threadpool.construct_default hw).maximum
        < (threadpool.construct_default hw).minimum
      ∧ ∀ w : Nat,
          ¬ ({ threadpool.construct_default hw with workers := w }).worker_inv := by
  obtain ⟨-, hm, hM, -⟩ := threadpool.spawn_fields ⟨2, hw, 0, 0, []⟩ 2
  have hm2 : (threadpool.construct_default hw).minimum = 2 := hm
  have hMw : (threadpool.construct_default hw).maximum = hw := hM
  constructor
  · omega
  · intro w hinv
    obtain ⟨h1, h2⟩ := hinv
    simp only at h1 h2
    omega

/-- Witness for C10 on a machine reporting 0 hardware contexts. -/
theorem default_limits_unsatisfiable_witness :
    (threadpool.construct_default 0).maximum
      < (threadpool.construct_default 0).minimum :=
  (default_limits_unsatisfiable 0 (by decide)).1
